import Mathlib

/-
Verification development for a GARCH index-volatility analysis pipeline.

The embedding models the analytical core of the repository:
  * `kupiec_test`, `count_exceptions`, `compute_var`, `backtest_var`
    (src/backend/app/backtest.py),
  * `select_best_model` (src/backend/app/models.py),
  * the per-instrument orchestration loop (src/backend/main.py).

Modelling conventions:
  * Python floats are modelled as real numbers.
  * pandas Series are modelled as a list of (integer) index labels together
    with a valuation function from labels to values; `.loc[common]` is
    modelled by mapping the valuation over the common label list.
  * Fallible arithmetic (Python's ZeroDivisionError on `a / 0`, and the
    domain restriction of the logarithm) is modelled with `Except`:
    `safeDiv` fails on a zero denominator exactly as Python float/int
    division raises ZeroDivisionError, and `safeLog` tracks entry into the
    log's domain boundary (where `np.log` would produce `-inf`/`nan`
    instead of a finite value).
  * External library functions with no algorithmic content in this
    repository are parameters of the embedding (`chi2cdf` for
    `scipy.stats.chi2.cdf`, `fit_garch` for the `arch`-package optimizer),
    except `scipy.stats.norm.ppf`, which is modelled exactly as the
    quantile function of the standard normal distribution (`norm_ppf`
    below), since claims depend on its order-theoretic properties.
-/

namespace GarchVaR

/-- Runtime failures of the Python arithmetic that the backtest can hit:
division by zero (Python raises `ZeroDivisionError`) and a logarithm
evaluated outside its domain. -/
inductive PyErr where
  | divisionByZero
  | logDomain
deriving DecidableEq

/-- Division as used in `kupiec_test`: Python raises `ZeroDivisionError`
on a zero denominator (both for `int / int` and `float / float`). -/
noncomputable def safeDiv (a b : ℝ) : Except PyErr ℝ :=
  if b = 0 then .error .divisionByZero else .ok (a / b)

/-- Logarithm as used in `kupiec_test` (`np.log`); an argument outside the
positive domain is tracked as an error value (where numpy would emit
`-inf`/`nan` rather than a finite statistic). -/
noncomputable def safeLog (x : ℝ) : Except PyErr ℝ :=
  if x ≤ 0 then .error .logDomain else .ok (Real.log x)

/-- Result dictionary of `kupiec_test` (src/backend/app/backtest.py,
lines 109-116). -/
structure KupiecResult where
  expected_exceptions : ℝ
  observed_exceptions : ℕ
  observed_rate : ℝ
  lr_statistic : ℝ
  p_value : ℝ
  reject_null : Prop

/-- Kupiec proportion-of-failures test, translated from `kupiec_test`
(src/backend/app/backtest.py, lines 68-116).  `chi2cdf` stands for the
external `scipy.stats.chi2.cdf(·, df=1)`. -/
noncomputable def kupiec_test (chi2cdf : ℝ → ℝ) (exceptions total_obs : ℕ)
    (confidence_level : ℝ) : Except PyErr KupiecResult := do
  let expected_rate : ℝ := 1 - confidence_level
  let observed_rate ← safeDiv (exceptions : ℝ) (total_obs : ℝ)
  let lr_stat ←
    if exceptions = 0 then do
      let l ← safeLog (1 - expected_rate)
      pure (-2 * ((total_obs : ℝ) * l))
    else if exceptions = total_obs then do
      let l ← safeLog expected_rate
      pure (-2 * ((total_obs : ℝ) * l))
    else do
      let q1 ← safeDiv (1 - expected_rate) (1 - observed_rate)
      let l1 ← safeLog q1
      let q2 ← safeDiv expected_rate observed_rate
      let l2 ← safeLog q2
      pure (-2 * (((total_obs : ℝ) - (exceptions : ℝ)) * l1 + (exceptions : ℝ) * l2))
  let p_value := 1 - chi2cdf lr_stat
  pure
    { expected_exceptions := expected_rate * (total_obs : ℝ)
      observed_exceptions := exceptions
      observed_rate := observed_rate
      lr_statistic := lr_stat
      p_value := p_value
      reject_null := p_value < 0.05 }

/-- The likelihood-ratio statistic computed by the three branches of
`kupiec_test` (src/backend/app/backtest.py, lines 93-101), written with
`p = 1 - confidence_level` inlined, exactly as the source computes it. -/
noncomputable def kupiecLR (exceptions total_obs : ℕ) (confidence_level : ℝ) : ℝ :=
  if exceptions = 0 then
    -2 * ((total_obs : ℝ) * Real.log (1 - (1 - confidence_level)))
  else if exceptions = total_obs then
    -2 * ((total_obs : ℝ) * Real.log (1 - confidence_level))
  else
    -2 * (((total_obs : ℝ) - (exceptions : ℝ)) *
        Real.log ((1 - (1 - confidence_level)) / (1 - (exceptions : ℝ) / (total_obs : ℝ)))
      + (exceptions : ℝ) *
        Real.log ((1 - confidence_level) / ((exceptions : ℝ) / (total_obs : ℝ))))

/-- The two error-distribution hypotheses of `fit_garch`
(src/backend/app/models.py). -/
inductive GarchDist where
  | normal
  | t
deriving DecidableEq

/-- Output dictionary of `fit_garch` (src/backend/app/models.py,
lines 48-53); the numeric content is produced by the external
`arch`-package optimizer, so it is left abstract here. -/
structure FitOutput where
  conditional_volatility : List ℝ
  aic : ℝ
  standardised_residuals : List ℝ

/-- Result dictionary of `select_best_model` (src/backend/app/models.py,
lines 86-91). -/
structure ModelSelection where
  selected_model : String
  aic_normal : ℝ
  aic_t : ℝ
  model_output : FitOutput

/-- Model selection by AIC, translated from `select_best_model`
(src/backend/app/models.py, lines 56-91).  `fit_garch` stands for the
external-optimizer-driven fit of a given distribution on the fixed input
return series; the claim quantifies over runs where both fits succeed,
so the fit is a total function here. -/
noncomputable def select_best_model (fit_garch : GarchDist → FitOutput) : ModelSelection :=
  let result_normal := fit_garch .normal
  let result_t := fit_garch .t
  if result_normal.aic ≤ result_t.aic then
    { selected_model := "normal"
      aic_normal := result_normal.aic
      aic_t := result_t.aic
      model_output := result_normal }
  else
    { selected_model := "t"
      aic_normal := result_normal.aic
      aic_t := result_t.aic
      model_output := result_t }

/-- One entry of the orchestrator's collected results (src/backend/main.py):
either the full per-instrument report or an error-only entry. -/
inductive ResultEntry (R : Type) where
  | report (r : R)
  | error (e : String)
deriving DecidableEq

/-- The orchestration loop of `main` (src/backend/main.py, lines 27-37):
each ticker is processed in input order; a failing pipeline run is caught
and recorded as an error-only entry; a succeeding run is recorded as the
full report.  `run_pipeline` stands for the per-instrument pipeline. -/
def main_results {R : Type} (tickers : List String)
    (run_pipeline : String → Except String R) : List (String × ResultEntry R) :=
  tickers.map fun t =>
    (t, match run_pipeline t with
        | .ok r => ResultEntry.report r
        | .error e => ResultEntry.error e)

/-- `pandas.Index.intersection` of two (unique-labelled) indices, modelled
as the labels of the first index that also occur in the second. -/
def indexIntersection (idx1 idx2 : List ℤ) : List ℤ :=
  idx1.filter (fun i => decide (i ∈ idx2))

/-- Exception counting, translated from `count_exceptions`
(src/backend/app/backtest.py, lines 35-65): align both series on the
common index, then count positions where the return is strictly below
the VaR value. -/
noncomputable def count_exceptions (returnsIdx : List ℤ) (returnsVal : ℤ → ℝ)
    (varIdx : List ℤ) (varVal : ℤ → ℝ) : ℕ :=
  let common_index := indexIntersection returnsIdx varIdx
  let aligned_returns := common_index.map returnsVal
  let aligned_var := common_index.map varVal
  (aligned_returns.zip aligned_var).countP (fun p => decide (p.1 < p.2))

/-- Cumulative distribution function of the standard normal distribution. -/
noncomputable def stdNormalCdf (x : ℝ) : ℝ :=
  ∫ t in Set.Iic x, ProbabilityTheory.gaussianPDFReal 0 1 t

open Classical in
/-- Model of the external `scipy.stats.norm.ppf`: the quantile function of
the standard normal distribution, i.e. the inverse of `stdNormalCdf` where
that inverse exists. -/
noncomputable def norm_ppf (p : ℝ) : ℝ :=
  if h : ∃ x, stdNormalCdf x = p then h.choose else 0

/-- One-day-ahead VaR, translated from `compute_var`
(src/backend/app/backtest.py, lines 10-32): the series with the same index
whose values are `z * sigma` with `z = norm_ppf (1 - confidence_level)`. -/
noncomputable def compute_var (volIdx : List ℤ) (volVal : ℤ → ℝ)
    (confidence_level : ℝ) : List ℤ × (ℤ → ℝ) :=
  let z_score := norm_ppf (1 - confidence_level)
  (volIdx, fun i => z_score * volVal i)

/-- Python's `int()` applied to a float: truncation toward zero. -/
noncomputable def pyInt (x : ℝ) : ℤ :=
  if 0 ≤ x then ⌊x⌋ else -⌊-x⌋

/-- Per-confidence-level result dictionary of `backtest_var`
(src/backend/app/backtest.py, lines 167-172); the source dict key
`kupiec_test` is the field `kupiec` here. -/
structure VaRLevelResult where
  confidence_level : ℝ
  total_observations : ℕ
  exceptions : ℕ
  kupiec : KupiecResult

/-- The loop body of `backtest_var` (src/backend/app/backtest.py,
lines 155-172) for one confidence level, on the already-aligned common
index: compute the VaR series, count exceptions, run the Kupiec test and
build the keyed per-level result entry (`total_obs` is the length of the
aligned window computed once by `backtest_var`). -/
noncomputable def backtest_level (chi2cdf : ℝ → ℝ) (common_index : List ℤ)
    (returnsVal : ℤ → ℝ) (volVal : ℤ → ℝ) (cl : ℝ) :
    Except PyErr (String × VaRLevelResult) := do
  let total_obs := common_index.length
  let varS := compute_var common_index volVal cl
  let exceptions := count_exceptions common_index returnsVal varS.1 varS.2
  let kupiec_result ← kupiec_test chi2cdf exceptions total_obs cl
  let cl_key := "var_" ++ toString (pyInt (cl * 100))
  pure (cl_key,
    { confidence_level := cl
      total_observations := total_obs
      exceptions := exceptions
      kupiec := kupiec_result })

/-- Full VaR backtest, translated from `backtest_var`
(src/backend/app/backtest.py, lines 119-174): align the two series once,
then run the per-level procedure over the requested confidence levels.
A `none` level list models the Python default argument (`[0.95, 0.99]`). -/
noncomputable def backtest_var (chi2cdf : ℝ → ℝ)
    (returnsIdx : List ℤ) (returnsVal : ℤ → ℝ)
    (volIdx : List ℤ) (volVal : ℤ → ℝ)
    (confidence_levels : Option (List ℝ)) :
    Except PyErr (List (String × VaRLevelResult)) :=
  let levels := confidence_levels.getD [0.95, 0.99]
  let common_index := indexIntersection returnsIdx volIdx
  levels.mapM (backtest_level chi2cdf common_index returnsVal volVal)

theorem safeDiv_ok {a b : ℝ} (hb : b ≠ 0) : safeDiv a b = .ok (a / b) := by
  simp [safeDiv, hb]

theorem safeLog_ok {x : ℝ} (hx : 0 < x) : safeLog x = .ok (Real.log x) := by
  simp [safeLog, not_le.mpr hx]

/-- Master evaluation lemma for `kupiec_test`: on a nondegenerate input
(positive observation count, exception count within range, confidence
level strictly between 0 and 1) the test succeeds and every field of the
result dictionary has its closed-form value. -/
theorem kupiec_test_eq_ok (chi2cdf : ℝ → ℝ) {x n : ℕ} {c : ℝ}
    (hn : 0 < n) (hxn : x ≤ n) (hc0 : 0 < c) (hc1 : c < 1) :
    kupiec_test chi2cdf x n c =
      .ok { expected_exceptions := (1 - c) * (n : ℝ)
            observed_exceptions := x
            observed_rate := (x : ℝ) / (n : ℝ)
            lr_statistic := kupiecLR x n c
            p_value := 1 - chi2cdf (kupiecLR x n c)
            reject_null := 1 - chi2cdf (kupiecLR x n c) < 0.05 } := by
  have hnR : ((n : ℝ)) ≠ 0 := Nat.cast_ne_zero.mpr hn.ne'
  by_cases hx0 : x = 0
  · subst hx0
    simp [kupiec_test, kupiecLR, safeDiv_ok hnR, safeLog_ok hc0, hn.ne',
      Bind.bind, Except.bind, pure, Except.pure]
  · by_cases hxeq : x = n
    · subst hxeq
      have h1 : (0:ℝ) < 1 - c := by linarith
      simp [kupiec_test, kupiecLR, safeDiv_ok hnR, safeLog_ok h1, hx0,
        Bind.bind, Except.bind, pure, Except.pure]
    · have hxpos : 0 < x := Nat.pos_of_ne_zero hx0
      have hxltn : x < n := lt_of_le_of_ne hxn hxeq
      have hnRpos : (0:ℝ) < (n : ℝ) := by exact_mod_cast hn
      have hratepos : (0:ℝ) < (x : ℝ) / (n : ℝ) := by positivity
      have hratelt1 : (x : ℝ) / (n : ℝ) < 1 :=
        (div_lt_one hnRpos).mpr (by exact_mod_cast hxltn)
      have h1mrate : (0:ℝ) < 1 - (x : ℝ) / (n : ℝ) := by linarith
      have hq1 : (0:ℝ) < c / (1 - (x : ℝ) / (n : ℝ)) :=
        div_pos hc0 h1mrate
      have hq2 : (0:ℝ) < (1 - c) / ((x : ℝ) / (n : ℝ)) :=
        div_pos (by linarith) hratepos
      simp [kupiec_test, kupiecLR, safeDiv_ok hnR, safeDiv_ok h1mrate.ne',
        safeDiv_ok hratepos.ne', safeLog_ok hq1, safeLog_ok hq2, hx0, hxeq,
        Bind.bind, Except.bind, pure, Except.pure]

/-- C1: for every exception count `x` and total observation count `n > 0`
at confidence level `c`, `kupiec_test` computes the likelihood-ratio
statistic by three branches (with `p = 1 - c` and `p-hat = x / n`): for
`x = 0`, `LR = -2 n ln(1-p)`; for `x = n`, `LR = -2 n ln p`; otherwise
`LR = -2 [(n-x) ln((1-p)/(1-p-hat)) + x ln(p/p-hat)]`; the p-value is
`1 - CDF_chi2(LR; df 1)` and `reject_null` holds exactly when the p-value
is below 0.05. -/
theorem kupiec_test_three_branches (chi2cdf : ℝ → ℝ) (x n : ℕ) (c : ℝ)
    (hn : 0 < n) (hxn : x ≤ n) (hc0 : 0 < c) (hc1 : c < 1) :
    ∃ r, kupiec_test chi2cdf x n c = .ok r ∧
      r.lr_statistic =
        (if x = 0 then -2 * ((n : ℝ) * Real.log (1 - (1 - c)))
         else if x = n then -2 * ((n : ℝ) * Real.log (1 - c))
         else -2 * (((n : ℝ) - (x : ℝ)) *
              Real.log ((1 - (1 - c)) / (1 - (x : ℝ) / (n : ℝ)))
            + (x : ℝ) * Real.log ((1 - c) / ((x : ℝ) / (n : ℝ))))) ∧
      r.p_value = 1 - chi2cdf r.lr_statistic ∧
      (r.reject_null ↔ r.p_value < 0.05) :=
  ⟨_, kupiec_test_eq_ok chi2cdf hn hxn hc0 hc1, rfl, rfl, Iff.rfl⟩

theorem kupiec_test_three_branches_witness :
    ((0:ℕ) < 2 ∧ (1:ℕ) ≤ 2 ∧ (0:ℝ) < 1/2 ∧ (1:ℝ)/2 < 1) ∧
    (∃ r, kupiec_test (fun _ => (0:ℝ)) 1 2 (1/2) = .ok r ∧
      r.lr_statistic =
        (if (1:ℕ) = 0 then -2 * (((2:ℕ) : ℝ) * Real.log (1 - (1 - 1/2)))
         else if (1:ℕ) = 2 then -2 * (((2:ℕ) : ℝ) * Real.log (1 - 1/2))
         else -2 * ((((2:ℕ) : ℝ) - ((1:ℕ) : ℝ)) *
              Real.log ((1 - (1 - 1/2)) / (1 - ((1:ℕ) : ℝ) / ((2:ℕ) : ℝ)))
            + ((1:ℕ) : ℝ) * Real.log ((1 - 1/2) / (((1:ℕ) : ℝ) / ((2:ℕ) : ℝ))))) ∧
      r.p_value = 1 - (fun _ => (0:ℝ)) r.lr_statistic ∧
      (r.reject_null ↔ r.p_value < 0.05)) :=
  ⟨⟨by norm_num, by norm_num, by norm_num, by norm_num⟩,
    kupiec_test_three_branches (fun _ => (0:ℝ)) 1 2 (1/2)
      (by norm_num) (by norm_num) (by norm_num) (by norm_num)⟩

/-- C2: at the boundary exception counts `x = 0` or `x = n` (with
`0 < n` and `0 < c < 1`), `kupiec_test` succeeds without ever entering the
general-case branch: no division by a zero denominator and no logarithm of
a non-positive argument occurs, and the statistic equals the one-sided
boundary formula. -/
theorem kupiec_test_boundary_safe (chi2cdf : ℝ → ℝ) (x n : ℕ) (c : ℝ)
    (hb : x = 0 ∨ x = n) (hn : 0 < n) (hc0 : 0 < c) (hc1 : c < 1) :
    ∃ r, kupiec_test chi2cdf x n c = .ok r ∧
      r.lr_statistic =
        (if x = 0 then -2 * ((n : ℝ) * Real.log (1 - (1 - c)))
         else -2 * ((n : ℝ) * Real.log (1 - c))) := by
  have hxn : x ≤ n := by
    rcases hb with h | h
    · simp [h]
    · simp [h]
  refine ⟨_, kupiec_test_eq_ok chi2cdf hn hxn hc0 hc1, ?_⟩
  rcases hb with h | h
  · subst h
    simp [kupiecLR]
  · subst h
    simp [kupiecLR, hn.ne']

theorem kupiec_test_boundary_safe_witness :
    (((0:ℕ) = 0 ∨ (0:ℕ) = 3) ∧ (0:ℕ) < 3 ∧ (0:ℝ) < 1/2 ∧ (1:ℝ)/2 < 1) ∧
    (∃ r, kupiec_test (fun _ => (0:ℝ)) 0 3 (1/2) = .ok r ∧
      r.lr_statistic =
        (if (0:ℕ) = 0 then -2 * (((3:ℕ) : ℝ) * Real.log (1 - (1 - 1/2)))
         else -2 * (((3:ℕ) : ℝ) * Real.log (1 - 1/2)))) :=
  ⟨⟨Or.inl rfl, by norm_num, by norm_num, by norm_num⟩,
    kupiec_test_boundary_safe (fun _ => (0:ℝ)) 0 3 (1/2) (Or.inl rfl)
      (by norm_num) (by norm_num) (by norm_num)⟩

/-- C4: whenever both fits succeed, `select_best_model` reports the two
AIC values of the fits, selects the model whose AIC is
`min aic_normal aic_t`, and on an exact tie deterministically selects
`"normal"`. -/
theorem select_best_model_min_aic (fit_garch : GarchDist → FitOutput) :
    (select_best_model fit_garch).aic_normal = (fit_garch .normal).aic ∧
    (select_best_model fit_garch).aic_t = (fit_garch .t).aic ∧
    (select_best_model fit_garch).model_output.aic
        = min (select_best_model fit_garch).aic_normal
            (select_best_model fit_garch).aic_t ∧
    ((select_best_model fit_garch).aic_normal
        = (select_best_model fit_garch).aic_t →
      (select_best_model fit_garch).selected_model = "normal") := by
  by_cases h : (fit_garch .normal).aic ≤ (fit_garch .t).aic
  · simp [select_best_model, h, min_eq_left h]
  · have h' : (fit_garch .t).aic ≤ (fit_garch .normal).aic := le_of_not_le h
    refine ⟨by simp [select_best_model, h], by simp [select_best_model, h],
      by simp [select_best_model, h, min_eq_right h'], ?_⟩
    intro heq
    rw [select_best_model] at heq
    simp [h] at heq
    exact absurd (le_of_eq heq) h

theorem select_best_model_min_aic_witness :
    (select_best_model (fun _ => ⟨[], 0, []⟩)).selected_model = "normal" := by
  have h := select_best_model_min_aic (fun _ => ⟨[], 0, []⟩)
  exact h.2.2.2 (h.1.trans h.2.1.symm)

/-- C8: the orchestrator processes the configured instruments
independently in input order: the batch result has one entry per
instrument in order; an instrument whose pipeline run fails is mapped to
an error-only entry, and an instrument whose run succeeds is mapped to a
full-report entry — so a failure never prevents the other entries. -/
theorem main_results_isolation {R : Type} (tickers : List String)
    (run_pipeline : String → Except String R) :
    (main_results tickers run_pipeline).map Prod.fst = tickers ∧
    (∀ t ∈ tickers, ∀ e, run_pipeline t = .error e →
        (t, ResultEntry.error e) ∈ main_results tickers run_pipeline) ∧
    (∀ t ∈ tickers, ∀ r, run_pipeline t = .ok r →
        (t, ResultEntry.report r) ∈ main_results tickers run_pipeline) := by
  refine ⟨?_, ?_, ?_⟩
  · rw [main_results, List.map_map]
    exact List.map_id tickers
  · intro t ht e he
    refine List.mem_map.mpr ⟨t, ht, ?_⟩
    simp [he]
  · intro t ht r hr
    refine List.mem_map.mpr ⟨t, ht, ?_⟩
    simp [hr]

theorem main_results_isolation_witness :
    ("A", ResultEntry.error "boom") ∈
      main_results ["A", "B"]
        (fun t => if t = "A" then Except.error "boom" else Except.ok (0:ℕ)) ∧
    ("B", ResultEntry.report (0:ℕ)) ∈
      main_results ["A", "B"]
        (fun t => if t = "A" then Except.error "boom" else Except.ok (0:ℕ)) ∧
    (main_results ["A", "B"]
        (fun t => if t = "A" then Except.error "boom" else Except.ok (0:ℕ))).map
      Prod.fst = ["A", "B"] :=
  ⟨(main_results_isolation ["A", "B"] _).2.1 "A" (by simp) "boom" (if_pos rfl),
    (main_results_isolation ["A", "B"] _).2.2 "B" (by simp) 0
      (if_neg (by decide)),
    (main_results_isolation ["A", "B"] _).1⟩

/-- Unfolding lemma: exception counting is a predicate count over the
common index. -/
theorem count_exceptions_eq_countP (rIdx vIdx : List ℤ) (rVal vVal : ℤ → ℝ) :
    count_exceptions rIdx rVal vIdx vVal
      = (indexIntersection rIdx vIdx).countP
          (fun i => decide (rVal i < vVal i)) := by
  simp only [count_exceptions, List.zip_map', List.countP_map]
  rfl

theorem indexIntersection_self (l : List ℤ) : indexIntersection l l = l :=
  List.filter_eq_self.mpr (fun a ha => by simpa using ha)

theorem count_exceptions_le (rIdx vIdx : List ℤ) (rVal vVal : ℤ → ℝ) :
    count_exceptions rIdx rVal vIdx vVal
      ≤ (indexIntersection rIdx vIdx).length := by
  rw [count_exceptions_eq_countP]
  exact List.countP_le_length _

/-- C3: `count_exceptions` counts exactly the indices present in both
series (inner join) at which the return is strictly below the VaR value;
adding to either series an index absent from the other leaves the count
unchanged. -/
theorem count_exceptions_inner_join (rIdx vIdx : List ℤ) (rVal vVal : ℤ → ℝ)
    (hnd : rIdx.Nodup) :
    count_exceptions rIdx rVal vIdx vVal
        = ((rIdx.toFinset ∩ vIdx.toFinset).filter
            (fun i => rVal i < vVal i)).card ∧
    (∀ i, i ∉ rIdx →
        count_exceptions rIdx rVal (i :: vIdx) vVal
          = count_exceptions rIdx rVal vIdx vVal) ∧
    (∀ i, i ∉ vIdx →
        count_exceptions (rIdx ++ [i]) rVal vIdx vVal
          = count_exceptions rIdx rVal vIdx vVal) := by
  refine ⟨?_, ?_, ?_⟩
  · rw [count_exceptions_eq_countP, List.countP_eq_length_filter]
    have hnod :
        ((indexIntersection rIdx vIdx).filter
          (fun i => decide (rVal i < vVal i))).Nodup :=
      (hnd.filter _).filter _
    rw [← List.toFinset_card_of_nodup hnod]
    congr 1
    ext i
    simp only [indexIntersection, List.toFinset_filter, List.mem_toFinset,
      Finset.mem_filter, Finset.mem_inter, decide_eq_true_eq]
  · intro i₀ h0
    rw [count_exceptions_eq_countP, count_exceptions_eq_countP]
    congr 1
    apply List.filter_congr
    intro i hi
    have hne : i ≠ i₀ := fun h => h0 (h ▸ hi)
    simp [List.mem_cons, hne]
  · intro i₀ h0
    rw [count_exceptions_eq_countP, count_exceptions_eq_countP]
    unfold indexIntersection
    rw [List.filter_append]
    simp [h0]

theorem count_exceptions_inner_join_witness :
    (([0] : List ℤ).Nodup ∧ (5:ℤ) ∉ ([0] : List ℤ)) ∧
    count_exceptions [0] (fun _ => (0:ℝ)) ((5:ℤ) :: [1]) (fun _ => (1:ℝ))
      = count_exceptions [0] (fun _ => (0:ℝ)) [1] (fun _ => (1:ℝ)) :=
  ⟨⟨by decide, by decide⟩,
    (count_exceptions_inner_join [0] [1] (fun _ => (0:ℝ)) (fun _ => (1:ℝ))
      (by decide)).2.1 5 (by decide)⟩

/-- C7: on series whose indices do not overlap at all, the backtest (with
the default confidence levels) fails: the empty aligned window makes the
observed-rate division in `kupiec_test` divide by zero, which is the
degenerate-backtest (alignment-empty) failure — no result is produced. -/
theorem backtest_var_alignment_empty (chi2cdf : ℝ → ℝ)
    (rIdx vIdx : List ℤ) (rVal vVal : ℤ → ℝ)
    (h : indexIntersection rIdx vIdx = []) :
    backtest_var chi2cdf rIdx rVal vIdx vVal none
      = .error .divisionByZero := by
  simp [backtest_var, backtest_level, h, kupiec_test, safeDiv, Bind.bind,
    Except.bind, pure, Except.pure, List.mapM, List.mapM.loop]

theorem backtest_var_alignment_empty_witness :
    indexIntersection [0] [1] = [] ∧
    backtest_var (fun _ => (0:ℝ)) [0] (fun _ => (0:ℝ)) [1] (fun _ => (0:ℝ))
        none = .error .divisionByZero :=
  ⟨by decide,
    backtest_var_alignment_empty (fun _ => (0:ℝ)) [0] [1]
      (fun _ => (0:ℝ)) (fun _ => (0:ℝ)) (by decide)⟩

theorem mapM_ok_of_forall_ok {α β : Type} {f : α → Except PyErr β} :
    ∀ {l : List α}, (∀ a ∈ l, ∃ b, f a = .ok b) →
      ∃ res, l.mapM f = .ok res ∧
        List.Forall₂ (fun a b => f a = .ok b) l res := by
  intro l
  induction l with
  | nil =>
    intro _
    exact ⟨[], rfl, List.Forall₂.nil⟩
  | cons a l ih =>
    intro h
    obtain ⟨b, hb⟩ := h a (List.mem_cons_self a l)
    obtain ⟨res, hres, hall⟩ := ih (fun x hx => h x (List.mem_cons_of_mem a hx))
    refine ⟨b :: res, ?_, List.Forall₂.cons hb hall⟩
    rw [List.mapM_cons, hb, hres]
    rfl

theorem forall₂_mem_right {α β : Type} {R : α → β → Prop} :
    ∀ {l₁ : List α} {l₂ : List β}, List.Forall₂ R l₁ l₂ →
      ∀ b ∈ l₂, ∃ a ∈ l₁, R a b := by
  intro l₁ l₂ h
  induction h with
  | nil =>
    intro b hb
    cases hb
  | cons hR _ ih =>
    intro b hb
    rcases List.mem_cons.mp hb with rfl | hb'
    · exact ⟨_, List.mem_cons_self _ _, hR⟩
    · obtain ⟨a, ha, hab⟩ := ih b hb'
      exact ⟨a, List.mem_cons_of_mem _ ha, hab⟩

theorem forall₂_map_fst {α β γ : Type} {g : α → γ} :
    ∀ {l₁ : List α} {l₂ : List (γ × β)},
      List.Forall₂ (fun a e => e.1 = g a) l₁ l₂ →
        l₂.map Prod.fst = l₁.map g := by
  intro l₁ l₂ h
  induction h with
  | nil => rfl
  | cons hR _ ih => simp [hR, ih]

/-- Master evaluation lemma for the per-level backtest step: on a
nonempty aligned window and a confidence level strictly between 0 and 1,
the step succeeds and produces the keyed entry with all fields in closed
form. -/
theorem backtest_level_ok (chi2cdf : ℝ → ℝ) (common : List ℤ)
    (rVal vVal : ℤ → ℝ) {cl : ℝ} (hc0 : 0 < cl) (hc1 : cl < 1)
    (hn : 0 < common.length) :
    backtest_level chi2cdf common rVal vVal cl =
      .ok ("var_" ++ toString (pyInt (cl * 100)),
        { confidence_level := cl
          total_observations := common.length
          exceptions := count_exceptions common rVal common
            (fun i => norm_ppf (1 - cl) * vVal i)
          kupiec :=
            { expected_exceptions := (1 - cl) * (common.length : ℝ)
              observed_exceptions := count_exceptions common rVal common
                (fun i => norm_ppf (1 - cl) * vVal i)
              observed_rate :=
                ((count_exceptions common rVal common
                  (fun i => norm_ppf (1 - cl) * vVal i) : ℝ))
                  / ((common.length : ℝ))
              lr_statistic := kupiecLR (count_exceptions common rVal common
                  (fun i => norm_ppf (1 - cl) * vVal i)) common.length cl
              p_value := 1 - chi2cdf (kupiecLR (count_exceptions common rVal
                  common (fun i => norm_ppf (1 - cl) * vVal i))
                  common.length cl)
              reject_null := 1 - chi2cdf (kupiecLR (count_exceptions common
                  rVal common (fun i => norm_ppf (1 - cl) * vVal i))
                  common.length cl) < 0.05 } }) := by
  have hx : count_exceptions common rVal common
      (fun i => norm_ppf (1 - cl) * vVal i) ≤ common.length := by
    have h := count_exceptions_le common common rVal
      (fun i => norm_ppf (1 - cl) * vVal i)
    rwa [indexIntersection_self] at h
  simp [backtest_level, compute_var, kupiec_test_eq_ok chi2cdf hn hx hc0 hc1,
    Bind.bind, Except.bind, pure, Except.pure]

/-- Whenever the per-level step succeeds, the key of the produced entry is
the string built from the truncated percentage of the confidence level. -/
theorem backtest_level_key {chi2cdf : ℝ → ℝ} {common : List ℤ}
    {rVal vVal : ℤ → ℝ} {cl : ℝ} {e : String × VaRLevelResult}
    (he : backtest_level chi2cdf common rVal vVal cl = .ok e) :
    e.1 = "var_" ++ toString (pyInt (cl * 100)) := by
  revert he
  unfold backtest_level
  rcases hk : kupiec_test chi2cdf
      (count_exceptions common rVal (compute_var common vVal cl).1
        (compute_var common vVal cl).2) common.length cl with err | k
  · simp [hk, Bind.bind, Except.bind]
  · simp only [hk, Bind.bind, Except.bind, pure, Except.pure]
    intro he
    injection he with h
    subst h
    rfl

/-- Generic success lemma for the full backtest on explicit levels. -/
theorem backtest_var_ok (chi2cdf : ℝ → ℝ) (rIdx vIdx : List ℤ)
    (rVal vVal : ℤ → ℝ) (levels : List ℝ)
    (hn : 0 < (indexIntersection rIdx vIdx).length)
    (hls : ∀ cl ∈ levels, 0 < cl ∧ cl < 1) :
    ∃ res, backtest_var chi2cdf rIdx rVal vIdx vVal (some levels) = .ok res ∧
      List.Forall₂ (fun cl e =>
          backtest_level chi2cdf (indexIntersection rIdx vIdx) rVal vVal cl
            = .ok e)
        levels res := by
  have h : ∀ cl ∈ levels, ∃ e,
      backtest_level chi2cdf (indexIntersection rIdx vIdx) rVal vVal cl
        = .ok e :=
    fun cl hcl =>
      ⟨_, backtest_level_ok chi2cdf _ rVal vVal (hls cl hcl).1
        (hls cl hcl).2 hn⟩
  obtain ⟨res, hres, hall⟩ := mapM_ok_of_forall_ok h
  exact ⟨res, by simpa [backtest_var] using hres, hall⟩

/-- C6: in every backtest result the total observation count is the size
of the intersection of the return-series and volatility-series indices,
computed once and reused: every produced level entry has exactly that
`total_observations`, and its Kupiec `expected_exceptions` equals
`(1 - c) * n` for that same count `n` and the entry's own confidence
level `c`. -/
theorem backtest_var_total_obs (chi2cdf : ℝ → ℝ) (rIdx vIdx : List ℤ)
    (rVal vVal : ℤ → ℝ) (levels : List ℝ)
    (hn : 0 < (indexIntersection rIdx vIdx).length)
    (hls : ∀ cl ∈ levels, 0 < cl ∧ cl < 1) :
    ∃ res, backtest_var chi2cdf rIdx rVal vIdx vVal (some levels) = .ok res ∧
      ∀ e ∈ res,
        e.2.total_observations = (indexIntersection rIdx vIdx).length ∧
        e.2.kupiec.expected_exceptions
          = (1 - e.2.confidence_level)
              * ((indexIntersection rIdx vIdx).length : ℝ) := by
  obtain ⟨res, hres, hall⟩ :=
    backtest_var_ok chi2cdf rIdx vIdx rVal vVal levels hn hls
  refine ⟨res, hres, ?_⟩
  intro e he
  obtain ⟨cl, hcl, hee⟩ := forall₂_mem_right hall e he
  rw [backtest_level_ok chi2cdf (indexIntersection rIdx vIdx) rVal vVal
    (hls cl hcl).1 (hls cl hcl).2 hn] at hee
  injection hee with h
  subst h
  exact ⟨rfl, rfl⟩

theorem backtest_var_total_obs_witness :
    (0 < (indexIntersection [0] [0]).length ∧
      ∀ cl ∈ [(1:ℝ)/2], 0 < cl ∧ cl < 1) ∧
    (∃ res, backtest_var (fun _ => (0:ℝ)) [0] (fun _ => (0:ℝ)) [0]
        (fun _ => (1:ℝ)) (some [(1:ℝ)/2]) = .ok res ∧
      ∀ e ∈ res,
        e.2.total_observations = (indexIntersection [0] [0]).length ∧
        e.2.kupiec.expected_exceptions
          = (1 - e.2.confidence_level)
              * ((indexIntersection [0] [0]).length : ℝ)) :=
  ⟨⟨by decide, by
      intro cl hcl
      rw [List.mem_singleton] at hcl
      subst hcl
      constructor <;> norm_num⟩,
    backtest_var_total_obs (fun _ => (0:ℝ)) [0] [0] (fun _ => (0:ℝ))
      (fun _ => (1:ℝ)) [(1:ℝ)/2] (by decide)
      (by
        intro cl hcl
        rw [List.mem_singleton] at hcl
        subst hcl
        constructor <;> norm_num)⟩

/-- C9 (amended): the key under which a confidence level's result is
stored is `var_<percent>` where `percent = int(c * 100)` truncated toward
zero (Python `int()`), not rounded to the nearest integer. -/
theorem backtest_var_keys (chi2cdf : ℝ → ℝ) (rIdx vIdx : List ℤ)
    (rVal vVal : ℤ → ℝ) (levels : List ℝ)
    (hn : 0 < (indexIntersection rIdx vIdx).length)
    (hls : ∀ cl ∈ levels, 0 < cl ∧ cl < 1) :
    ∃ res, backtest_var chi2cdf rIdx rVal vIdx vVal (some levels) = .ok res ∧
      res.map Prod.fst
        = levels.map (fun cl => "var_" ++ toString (pyInt (cl * 100))) := by
  obtain ⟨res, hres, hall⟩ :=
    backtest_var_ok chi2cdf rIdx vIdx rVal vVal levels hn hls
  exact ⟨res, hres,
    forall₂_map_fst (hall.imp (fun a b h => backtest_level_key h))⟩

theorem backtest_var_keys_witness :
    (0 < (indexIntersection [0] [0]).length ∧
      ∀ cl ∈ [(1:ℝ)/2], 0 < cl ∧ cl < 1) ∧
    (∃ res, backtest_var (fun _ => (0:ℝ)) [0] (fun _ => (0:ℝ)) [0]
        (fun _ => (1:ℝ)) (some [(1:ℝ)/2]) = .ok res ∧
      res.map Prod.fst
        = [(1:ℝ)/2].map (fun cl => "var_" ++ toString (pyInt (cl * 100)))) :=
  ⟨⟨by decide, by
      intro cl hcl
      rw [List.mem_singleton] at hcl
      subst hcl
      constructor <;> norm_num⟩,
    backtest_var_keys (fun _ => (0:ℝ)) [0] [0] (fun _ => (0:ℝ))
      (fun _ => (1:ℝ)) [(1:ℝ)/2] (by decide)
      (by
        intro cl hcl
        rw [List.mem_singleton] at hcl
        subst hcl
        constructor <;> norm_num)⟩

/-- C9 (counterexample to the claim as stated): at confidence level
`c = 7/8 = 0.875` the produced key is `var_87` (truncation of 87.5),
whereas rounding `c * 100` to the nearest integer gives 88, so the
claimed key `var_88` differs from the actual one. -/
theorem backtest_var_key_not_round :
    (∃ res, backtest_var (fun _ => (0:ℝ)) [0] (fun _ => (0:ℝ)) [0]
        (fun _ => (1:ℝ)) (some [(7:ℝ)/8]) = .ok res ∧
      res.map Prod.fst = ["var_87"]) ∧
    "var_" ++ toString (round ((7:ℝ)/8 * 100)) = "var_88" ∧
    ("var_87" : String) ≠ "var_88" := by
  have hpy : pyInt ((7:ℝ)/8 * 100) = 87 := by
    rw [pyInt, if_pos (by norm_num)]
    rw [show ((7:ℝ)/8 * 100) = 87.5 by norm_num]
    rw [Int.floor_eq_iff]
    constructor <;> norm_num
  refine ⟨?_, ?_, by decide⟩
  · obtain ⟨res, hres, hall⟩ :=
      backtest_var_ok (fun _ => (0:ℝ)) [0] [0] (fun _ => (0:ℝ))
        (fun _ => (1:ℝ)) [(7:ℝ)/8] (by decide)
        (by
          intro cl hcl
          rw [List.mem_singleton] at hcl
          subst hcl
          constructor <;> norm_num)
    refine ⟨res, hres, ?_⟩
    rw [forall₂_map_fst (hall.imp (fun a b h => backtest_level_key h))]
    rw [List.map_singleton, hpy]
    rfl
  · rw [show ((7:ℝ)/8 * 100) = 87.5 by norm_num]
    rw [round_eq, show (87.5:ℝ) + 1/2 = 88 by norm_num]
    rw [show ⌊(88:ℝ)⌋ = 88 by norm_num]
    rfl

/-- C10: the exception count never exceeds the size of the aligned
window: `count_exceptions` is bounded by the index-intersection size, and
in every produced backtest entry `exceptions ≤ total_observations` and
the Kupiec observed rate lies in `[0, 1]`. -/
theorem backtest_var_rate_bounds (chi2cdf : ℝ → ℝ) (rIdx vIdx : List ℤ)
    (rVal vVal : ℤ → ℝ) (levels : List ℝ)
    (hn : 0 < (indexIntersection rIdx vIdx).length)
    (hls : ∀ cl ∈ levels, 0 < cl ∧ cl < 1) :
    count_exceptions rIdx rVal vIdx vVal
        ≤ (indexIntersection rIdx vIdx).length ∧
    (∃ res, backtest_var chi2cdf rIdx rVal vIdx vVal (some levels)
        = .ok res ∧
      ∀ e ∈ res,
        e.2.exceptions ≤ e.2.total_observations ∧
        0 ≤ e.2.kupiec.observed_rate ∧ e.2.kupiec.observed_rate ≤ 1) := by
  refine ⟨count_exceptions_le rIdx vIdx rVal vVal, ?_⟩
  obtain ⟨res, hres, hall⟩ :=
    backtest_var_ok chi2cdf rIdx vIdx rVal vVal levels hn hls
  refine ⟨res, hres, ?_⟩
  intro e he
  obtain ⟨cl, hcl, hee⟩ := forall₂_mem_right hall e he
  rw [backtest_level_ok chi2cdf (indexIntersection rIdx vIdx) rVal vVal
    (hls cl hcl).1 (hls cl hcl).2 hn] at hee
  injection hee with h
  subst h
  have hx : count_exceptions (indexIntersection rIdx vIdx) rVal
      (indexIntersection rIdx vIdx)
      (fun i => norm_ppf (1 - cl) * vVal i)
      ≤ (indexIntersection rIdx vIdx).length := by
    have h := count_exceptions_le (indexIntersection rIdx vIdx)
      (indexIntersection rIdx vIdx) rVal
      (fun i => norm_ppf (1 - cl) * vVal i)
    rwa [indexIntersection_self] at h
  have hnR : (0:ℝ) < ((indexIntersection rIdx vIdx).length : ℝ) := by
    exact_mod_cast hn
  refine ⟨hx, div_nonneg (Nat.cast_nonneg _) (Nat.cast_nonneg _), ?_⟩
  exact (div_le_one hnR).mpr (Nat.cast_le.mpr hx)

theorem backtest_var_rate_bounds_witness :
    (0 < (indexIntersection [0] [0]).length ∧
      ∀ cl ∈ [(1:ℝ)/2], 0 < cl ∧ cl < 1) ∧
    (count_exceptions [0] (fun _ => (0:ℝ)) [0] (fun _ => (1:ℝ))
        ≤ (indexIntersection [0] [0]).length ∧
      (∃ res, backtest_var (fun _ => (0:ℝ)) [0] (fun _ => (0:ℝ)) [0]
          (fun _ => (1:ℝ)) (some [(1:ℝ)/2]) = .ok res ∧
        ∀ e ∈ res,
          e.2.exceptions ≤ e.2.total_observations ∧
          0 ≤ e.2.kupiec.observed_rate ∧ e.2.kupiec.observed_rate ≤ 1)) :=
  ⟨⟨by decide, by
      intro cl hcl
      rw [List.mem_singleton] at hcl
      subst hcl
      constructor <;> norm_num⟩,
    backtest_var_rate_bounds (fun _ => (0:ℝ)) [0] [0] (fun _ => (0:ℝ))
      (fun _ => (1:ℝ)) [(1:ℝ)/2] (by decide)
      (by
        intro cl hcl
        rw [List.mem_singleton] at hcl
        subst hcl
        constructor <;> norm_num)⟩

open MeasureTheory ProbabilityTheory in
theorem stdNormalCdf_eq_cdf (x : ℝ) :
    stdNormalCdf x = cdf (gaussianReal 0 1) x := by
  rw [cdf_eq_toReal, gaussianReal_apply_eq_integral 0 one_ne_zero (Set.Iic x),
    ENNReal.toReal_ofReal
      (integral_nonneg (fun t => gaussianPDFReal_nonneg 0 1 t))]
  rfl

open MeasureTheory ProbabilityTheory in
theorem stdNormalCdf_sub (a b : ℝ) :
    stdNormalCdf b - stdNormalCdf a
      = ∫ t in a..b, gaussianPDFReal 0 1 t :=
  intervalIntegral.integral_Iic_sub_Iic
    (integrable_gaussianPDFReal 0 1).integrableOn
    (integrable_gaussianPDFReal 0 1).integrableOn

open MeasureTheory ProbabilityTheory in
theorem stdNormalCdf_strictMono : StrictMono stdNormalCdf := by
  intro a b hab
  have h := intervalIntegral.intervalIntegral_pos_of_pos_on
    (integrable_gaussianPDFReal 0 1).intervalIntegrable
    (fun t _ => gaussianPDFReal_pos 0 1 t one_ne_zero) hab
  have hs := stdNormalCdf_sub a b
  linarith

open MeasureTheory ProbabilityTheory in
theorem stdNormalCdf_continuous : Continuous stdNormalCdf := by
  have h : ∀ x, stdNormalCdf x
      = stdNormalCdf 0 + ∫ t in (0:ℝ)..x, gaussianPDFReal 0 1 t := by
    intro x
    have := stdNormalCdf_sub 0 x
    linarith
  rw [show stdNormalCdf = fun x =>
      stdNormalCdf 0 + ∫ t in (0:ℝ)..x, gaussianPDFReal 0 1 t from funext h]
  exact continuous_const.add
    ((integrable_gaussianPDFReal 0 1).continuous_primitive 0)

open MeasureTheory ProbabilityTheory in
theorem stdNormalCdf_zero : stdNormalCdf 0 = 1 / 2 := by
  have heven : ∀ t, gaussianPDFReal 0 1 (-t) = gaussianPDFReal 0 1 t := by
    intro t
    simp [gaussianPDFReal, neg_sq]
  have h1 := integral_comp_neg_Iic (0:ℝ) (gaussianPDFReal 0 1)
  rw [neg_zero] at h1
  simp only [heven] at h1
  have h2 : (∫ t in Set.Iic (0:ℝ), gaussianPDFReal 0 1 t)
      + ∫ t in Set.Ioi (0:ℝ), gaussianPDFReal 0 1 t = 1 := by
    rw [intervalIntegral.integral_Iic_add_Ioi
      (integrable_gaussianPDFReal 0 1).integrableOn
      (integrable_gaussianPDFReal 0 1).integrableOn]
    exact integral_gaussianPDFReal_eq_one 0 one_ne_zero
  show (∫ t in Set.Iic (0:ℝ), gaussianPDFReal 0 1 t) = 1 / 2
  linarith

open ProbabilityTheory Filter in
theorem stdNormalCdf_tendsto_atTop :
    Tendsto stdNormalCdf atTop (nhds 1) := by
  rw [show stdNormalCdf = fun x => cdf (gaussianReal 0 1) x from
    funext stdNormalCdf_eq_cdf]
  exact tendsto_cdf_atTop _

open ProbabilityTheory Filter in
theorem stdNormalCdf_tendsto_atBot :
    Tendsto stdNormalCdf atBot (nhds 0) := by
  rw [show stdNormalCdf = fun x => cdf (gaussianReal 0 1) x from
    funext stdNormalCdf_eq_cdf]
  exact tendsto_cdf_atBot _

theorem exists_stdNormalCdf_eq {p : ℝ} (h0 : 0 < p) (h1 : p < 1) :
    ∃ x, stdNormalCdf x = p := by
  obtain ⟨b, hb⟩ := (stdNormalCdf_tendsto_atTop.eventually_const_lt h1).exists
  obtain ⟨a, ha⟩ := (stdNormalCdf_tendsto_atBot.eventually_lt_const h0).exists
  have hab : a ≤ b := by
    by_contra hcon
    push_neg at hcon
    have := stdNormalCdf_strictMono.monotone hcon.le
    linarith
  obtain ⟨x, _, hx⟩ :=
    intermediate_value_Icc hab stdNormalCdf_continuous.continuousOn
      ⟨ha.le, hb.le⟩
  exact ⟨x, hx⟩

theorem stdNormalCdf_norm_ppf {p : ℝ} (h0 : 0 < p) (h1 : p < 1) :
    stdNormalCdf (norm_ppf p) = p := by
  have hex := exists_stdNormalCdf_eq h0 h1
  rw [norm_ppf, dif_pos hex]
  exact hex.choose_spec

theorem norm_ppf_lt_norm_ppf {p q : ℝ} (h0 : 0 < p) (hpq : p < q)
    (h1 : q < 1) : norm_ppf p < norm_ppf q := by
  have hp := stdNormalCdf_norm_ppf h0 (hpq.trans h1)
  have hq := stdNormalCdf_norm_ppf (h0.trans hpq) h1
  have h := stdNormalCdf_strictMono.lt_iff_lt
    (a := norm_ppf p) (b := norm_ppf q)
  rw [hp, hq] at h
  exact h.mp hpq

theorem norm_ppf_neg {p : ℝ} (h0 : 0 < p) (hhalf : p < 1/2) :
    norm_ppf p < 0 := by
  have hp := stdNormalCdf_norm_ppf h0 (by linarith)
  have h := stdNormalCdf_strictMono.lt_iff_lt (a := norm_ppf p) (b := 0)
  rw [hp, stdNormalCdf_zero] at h
  exact h.mp hhalf

/-- C5: `compute_var` keeps the volatility index and scales every value by
the quantile `z = norm_ppf (1 - c)`; that quantile is strictly more
negative as the confidence level increases within `(0,1)`; in particular
`z(c₂) < z(c₁) < 0` for `1/2 < c₁ < c₂ < 1` (such as 0.95 and 0.99), so
on a non-negative volatility series the VaR at the higher confidence
level is pointwise less than or equal to the VaR at the lower one. -/
theorem compute_var_monotone (volIdx : List ℤ) (volVal : ℤ → ℝ) (c₁ c₂ : ℝ)
    (hhalf : 1/2 < c₁) (h12 : c₁ < c₂) (h1 : c₂ < 1)
    (hvol : ∀ i, 0 ≤ volVal i) :
    (∀ c, (compute_var volIdx volVal c).1 = volIdx ∧
      ∀ i, (compute_var volIdx volVal c).2 i
        = norm_ppf (1 - c) * volVal i) ∧
    (∀ d₁ d₂ : ℝ, 0 < d₁ → d₁ < d₂ → d₂ < 1 →
      norm_ppf (1 - d₂) < norm_ppf (1 - d₁)) ∧
    norm_ppf (1 - c₂) < norm_ppf (1 - c₁) ∧
    norm_ppf (1 - c₁) < 0 ∧
    (∀ i ∈ volIdx,
      (compute_var volIdx volVal c₂).2 i
        ≤ (compute_var volIdx volVal c₁).2 i) := by
  have hgen : ∀ d₁ d₂ : ℝ, 0 < d₁ → d₁ < d₂ → d₂ < 1 →
      norm_ppf (1 - d₂) < norm_ppf (1 - d₁) := by
    intro d₁ d₂ hd0 hdd hd1
    exact norm_ppf_lt_norm_ppf (by linarith) (by linarith) (by linarith)
  have hmono : norm_ppf (1 - c₂) < norm_ppf (1 - c₁) :=
    hgen c₁ c₂ (by linarith) h12 h1
  have hneg : norm_ppf (1 - c₁) < 0 := norm_ppf_neg (by linarith) (by linarith)
  refine ⟨fun c => ⟨rfl, fun i => rfl⟩, hgen, hmono, hneg, ?_⟩
  intro i _
  show norm_ppf (1 - c₂) * volVal i ≤ norm_ppf (1 - c₁) * volVal i
  exact mul_le_mul_of_nonneg_right hmono.le (hvol i)

theorem compute_var_monotone_witness :
    ((1:ℝ)/2 < 0.95 ∧ (0.95:ℝ) < 0.99 ∧ (0.99:ℝ) < 1 ∧
      ∀ i : ℤ, (0:ℝ) ≤ (fun _ : ℤ => (1:ℝ)) i) ∧
    ((∀ c, (compute_var [0] (fun _ : ℤ => (1:ℝ)) c).1 = [0] ∧
        ∀ i, (compute_var [0] (fun _ : ℤ => (1:ℝ)) c).2 i
          = norm_ppf (1 - c) * (fun _ : ℤ => (1:ℝ)) i) ∧
      (∀ d₁ d₂ : ℝ, 0 < d₁ → d₁ < d₂ → d₂ < 1 →
        norm_ppf (1 - d₂) < norm_ppf (1 - d₁)) ∧
      norm_ppf (1 - 0.99) < norm_ppf (1 - 0.95) ∧
      norm_ppf (1 - 0.95) < 0 ∧
      (∀ i ∈ ([0] : List ℤ),
        (compute_var [0] (fun _ : ℤ => (1:ℝ)) 0.99).2 i
          ≤ (compute_var [0] (fun _ : ℤ => (1:ℝ)) 0.95).2 i)) :=
  ⟨⟨by norm_num, by norm_num, by norm_num, fun i => by norm_num⟩,
    compute_var_monotone [0] (fun _ : ℤ => (1:ℝ)) 0.95 0.99
      (by norm_num) (by norm_num) (by norm_num) (fun i => by norm_num)⟩

end GarchVaR
